import Mathlib

/-!
# Verification of the opencode-on-telegram turn orchestrator

Shallow embedding of the turn-orchestrator code (the `streamSession`
function and its helpers in the main bot module, together with the
library modules `scope`/`permissions`, `safety`, `utils`, and the
constants module) and proofs about the merge rule, the token-accounting
latch, the update gate, the permission handshake, the nudge queue, the
markdown chunker and the status-poll loop.

Strings are modelled as Lean `String` (a wrapper around `List Char`);
the JavaScript string operations used by the code (`trim`, `startsWith`,
`endsWith`, `slice`, `lastIndexOf`, …) are defined below on `List Char`
with JavaScript semantics and wrapped. Timestamps and monetary costs
(JS `number`) are modelled as `ℚ`; token counts as `ℕ`.
-/

namespace OTB

/-! ## Constants (from the constants module) -/

def UPDATE_INTERVAL_MS : ℚ := 1000
def MIN_CHARS_DELTA : Nat := 30
def POLL_INITIAL_MS : ℚ := 400
def POLL_MAX_MS : ℚ := 5000
def STABLE_POLL_COUNT : Nat := 4
def MIN_STABLE_MS : ℚ := 3000
def RAW_MARKDOWN_SAFE_LIMIT : Nat := 2800
def MAX_TODO_ITEMS : Nat := 8
def MAX_BREADCRUMB_TOOLS : Nat := 8
def BREADCRUMB_FULL_NAME_COUNT : Nat := 3

/-! ## JavaScript string primitives

JS whitespace for `trim`: we model the characters that can actually occur
in the strings handled here (space, tab, CR, LF, vertical tab, form feed,
NBSP, BOM). -/

def isJsWhitespace (c : Char) : Bool :=
  c = ' ' || c = '\t' || c = '\n' || c = '\r' ||
  c = '\x0b' || c = '\x0c' || c = ' ' || c = '﻿'

def trimStartL (l : List Char) : List Char := l.dropWhile isJsWhitespace

def trimEndL (l : List Char) : List Char :=
  (l.reverse.dropWhile isJsWhitespace).reverse

def trimL (l : List Char) : List Char := trimEndL (trimStartL l)

/-- JS `s.trim()`. -/
def jsTrim (s : String) : String := ⟨trimL s.data⟩

/-- JS `s.trimStart()`. -/
def jsTrimStart (s : String) : String := ⟨trimStartL s.data⟩

/-- JS `s.trimEnd()`. -/
def jsTrimEnd (s : String) : String := ⟨trimEndL s.data⟩

/-- JS `s.startsWith(pre)`. -/
def jsStartsWith (s pre : String) : Bool := pre.data.isPrefixOf s.data

/-- JS `s.endsWith(suf)`. -/
def jsEndsWith (s suf : String) : Bool := suf.data.isSuffixOf s.data

/-- JS `s.slice(0, n)` for `0 ≤ n`. -/
def jsTake (s : String) (n : Nat) : String := ⟨s.data.take n⟩

/-- JS `s.slice(n)` for `0 ≤ n`. -/
def jsDrop (s : String) (n : Nat) : String := ⟨s.data.drop n⟩

/-- JS `s.length` (here: code-point count; the strings involved in the
claims contain no surrogate pairs). -/
def jsLength (s : String) : Nat := s.data.length

/-- `truncate` from the utils module:
`text.length <= max ? text : text.slice(0, Math.max(0, max - 3)) + "..."`. -/
def truncate (text : String) (max : Nat) : String :=
  if jsLength text ≤ max then text else jsTake text (max - 3) ++ "..."

/-! ## The merge rule (`normalizeDisplayText`, `mergeAssistantText`) -/

/-- `normalizeDisplayText(text)`: `(text ?? "").trim()` (callers passing
`null`/`undefined` are modelled as passing `""`). -/
def normalizeDisplayText (text : String) : String := jsTrim text

/-- `mergeAssistantText(current, next)` from the bot module:

```
const normalizedNext = normalizeDisplayText(next)
if (!normalizedNext) return current
if (!current) return normalizedNext
if (normalizedNext.startsWith(current)) return normalizedNext
if (current.startsWith(normalizedNext)) return current
return `${current}${current.endsWith("\n") ? "" : "\n"}${normalizedNext}`
```
-/
def mergeAssistantText (current next : String) : String :=
  let normalizedNext := normalizeDisplayText next
  if normalizedNext = "" then current
  else if current = "" then normalizedNext
  else if jsStartsWith normalizedNext current then normalizedNext
  else if jsStartsWith current normalizedNext then current
  else current ++ (if jsEndsWith current "\n" then "" else "\n") ++ normalizedNext

/-! ### Lemmas about strings -/

lemma String.data_eq_of_eq {s t : String} (h : s = t) : s.data = t.data := by
  rw [h]

lemma string_append_data (s t : String) : (s ++ t).data = s.data ++ t.data := rfl

lemma string_eq_iff_data {s t : String} : s = t ↔ s.data = t.data :=
  ⟨String.data_eq_of_eq, fun h => by cases s; cases t; exact congrArg String.mk h⟩

lemma jsStartsWith_iff {s pre : String} :
    jsStartsWith s pre = true ↔ pre.data <+: s.data := by
  simp [jsStartsWith, List.isPrefixOf_iff_prefix]

lemma jsStartsWith_eq_false_iff {s pre : String} :
    jsStartsWith s pre = false ↔ ¬ pre.data <+: s.data := by
  rw [← jsStartsWith_iff]
  cases h : jsStartsWith s pre <;> simp [h]

/-- The merged transcript never shrinks: `current` is always a prefix of
the merge result. -/
lemma mergeAssistantText_never_shrinks (current next : String) :
    current.data <+: (mergeAssistantText current next).data := by
  unfold mergeAssistantText
  set n := normalizeDisplayText next with hn
  by_cases h1 : n = ""
  · simp [h1]
  · by_cases h2 : current = ""
    · simp [h1, h2]
    · by_cases h3 : jsStartsWith n current
      · simp only [h1, h2, h3, if_false, if_true]
        exact jsStartsWith_iff.mp h3
      · by_cases h4 : jsStartsWith current n
        · simp [h1, h2, h3, h4]
        · simp only [h1, h2, h3, h4, if_false, Bool.false_eq_true]
          refine ⟨((if jsEndsWith current "\n" then "" else "\n") ++ n).data, ?_⟩
          simp [string_append_data, List.append_assoc]

/-- When the trimmed snapshot and the current transcript are
prefix-comparable, the merge keeps one of the two, namely the longer. -/
lemma mergeAssistantText_comparable (current next : String)
    (h : current.data <+: (normalizeDisplayText next).data ∨
         (normalizeDisplayText next).data <+: current.data) :
    (mergeAssistantText current next = current ∨
     mergeAssistantText current next = normalizeDisplayText next) ∧
    jsLength (mergeAssistantText current next)
      = max (jsLength current) (jsLength (normalizeDisplayText next)) := by
  set n := normalizeDisplayText next with hn
  by_cases h1 : n = ""
  · have hm : mergeAssistantText current next = current := by
      unfold mergeAssistantText; rw [← hn]; simp [h1]
    have hlen : jsLength n = 0 := by rw [h1]; rfl
    rw [hm, hlen]
    exact ⟨Or.inl rfl, (Nat.max_eq_left (Nat.zero_le _)).symm⟩
  · by_cases h2 : current = ""
    · have hm : mergeAssistantText current next = n := by
        unfold mergeAssistantText; rw [← hn]; simp [h1, h2]
      have hlen : jsLength current = 0 := by rw [h2]; rfl
      rw [hm, hlen]
      exact ⟨Or.inr rfl, (Nat.max_eq_right (Nat.zero_le _)).symm⟩
    · by_cases h3 : jsStartsWith n current
      · have hp := jsStartsWith_iff.mp h3
        have hle : jsLength current ≤ jsLength n := hp.length_le
        have hm : mergeAssistantText current next = n := by
          unfold mergeAssistantText; rw [← hn]; simp [h1, h2, h3]
        rw [hm]
        exact ⟨Or.inr rfl, (Nat.max_eq_right hle).symm⟩
      · by_cases h4 : jsStartsWith current n
        · have hp := jsStartsWith_iff.mp h4
          have hle : jsLength n ≤ jsLength current := hp.length_le
          have hm : mergeAssistantText current next = current := by
            unfold mergeAssistantText; rw [← hn]; simp [h1, h2, h3, h4]
          rw [hm]
          exact ⟨Or.inl rfl, (Nat.max_eq_left hle).symm⟩
        · exfalso
          rcases h with h | h
          · exact (jsStartsWith_eq_false_iff.mp (by simpa using h3)) h
          · exact (jsStartsWith_eq_false_iff.mp (by simpa using h4)) h

/-- When neither is a prefix of the other (and both are nonempty), the
merge appends with a newline boundary. -/
lemma mergeAssistantText_append (current next : String)
    (h1 : normalizeDisplayText next ≠ "") (h2 : current ≠ "")
    (h3 : ¬ current.data <+: (normalizeDisplayText next).data)
    (h4 : ¬ (normalizeDisplayText next).data <+: current.data) :
    mergeAssistantText current next =
      current ++ (if jsEndsWith current "\n" then "" else "\n")
        ++ normalizeDisplayText next := by
  have h3' : jsStartsWith (normalizeDisplayText next) current = false := by
    rw [jsStartsWith_eq_false_iff]; exact h3
  have h4' : jsStartsWith current (normalizeDisplayText next) = false := by
    rw [jsStartsWith_eq_false_iff]; exact h4
  unfold mergeAssistantText
  simp [h1, h2, h3', h4']

/-- Merging a snapshot into a transcript that already equals the trimmed
snapshot is a no-op. -/
lemma mergeAssistantText_self (next : String) :
    mergeAssistantText (normalizeDisplayText next) next
      = normalizeDisplayText next := by
  unfold mergeAssistantText
  by_cases h1 : normalizeDisplayText next = ""
  · simp [h1]
  · have : jsStartsWith (normalizeDisplayText next) (normalizeDisplayText next)
        = true := jsStartsWith_iff.mpr ⟨[], List.append_nil _⟩
    simp [h1, this]

/-! ### Claim C2 -/

/-- **C2** (amended). `mergeAssistantText(c, t)` keeps the longer of the two
whenever the trimmed `t` equals, extends, or is extended by `c` in the
*prefix* sense (suffix-only overlap is not detected — see the
counterexample); otherwise it returns `c` followed by a newline boundary
(omitted when `c` already ends in a newline) and the trimmed `t`; the
transcript `"Here is the"` merged with `"Here is the answer."` yields
`"Here is the answer."`; and the result never shrinks: `c` is always a
prefix of the merged output. -/
theorem C2_merge_spec :
    (∀ current next : String,
      ((current.data <+: (normalizeDisplayText next).data ∨
        (normalizeDisplayText next).data <+: current.data) →
        (mergeAssistantText current next = current ∨
         mergeAssistantText current next = normalizeDisplayText next) ∧
        jsLength (mergeAssistantText current next)
          = max (jsLength current) (jsLength (normalizeDisplayText next))) ∧
      (normalizeDisplayText next ≠ "" → current ≠ "" →
        ¬ current.data <+: (normalizeDisplayText next).data →
        ¬ (normalizeDisplayText next).data <+: current.data →
        mergeAssistantText current next =
          current ++ (if jsEndsWith current "\n" then "" else "\n")
            ++ normalizeDisplayText next) ∧
      current.data <+: (mergeAssistantText current next).data) ∧
    mergeAssistantText "Here is the" "Here is the answer."
      = "Here is the answer." := by
  refine ⟨fun current next => ⟨?_, ?_, ?_⟩, by decide⟩
  · exact mergeAssistantText_comparable current next
  · exact mergeAssistantText_append current next
  · exact mergeAssistantText_never_shrinks current next

/-- Witness for `C2_merge_spec`: at the spec's own scenario input, the
prefix-comparable branch applies and keeps the longer text. -/
theorem C2_merge_spec_witness :
    mergeAssistantText "Here is the" "Here is the answer." = "Here is the" ∨
    mergeAssistantText "Here is the" "Here is the answer."
      = normalizeDisplayText "Here is the answer." :=
  ((C2_merge_spec.1 "Here is the" "Here is the answer.").1
    (Or.inl (by decide))).1

/-- Counterexample to C2 as stated: `"b"` *is a suffix* of `"ab"` (and
trims to itself), so the claim requires the merge to keep the longer
string `"ab"`; the code instead appends, producing `"ab\nb"`. -/
theorem C2_merge_counterexample :
    ("b" : String).data.isSuffixOf ("ab" : String).data = true ∧
    normalizeDisplayText "b" = "b" ∧
    mergeAssistantText "ab" "b" = "ab\nb" ∧
    ("ab\nb" : String) ≠ "ab" := by decide

/-! ### Claim C8 -/

/-- **C8** (amended). Merging the same snapshot twice is idempotent
whenever the trimmed snapshot and the current transcript are
prefix-comparable (one is a prefix of the other, which covers the empty
cases); when the first merge falls into the append branch, the second
merge appends the snapshot again (see the counterexample). -/
theorem C8_merge_idempotent :
    ∀ current next : String,
      (current.data <+: (normalizeDisplayText next).data ∨
       (normalizeDisplayText next).data <+: current.data) →
      mergeAssistantText (mergeAssistantText current next) next
        = mergeAssistantText current next := by
  intro current next h
  rcases (mergeAssistantText_comparable current next h).1 with hm | hm
  · rw [hm]; exact hm
  · rw [hm]
    exact mergeAssistantText_self next

/-- Witness for `C8_merge_idempotent` at a concrete prefix-extension
input. -/
theorem C8_merge_idempotent_witness :
    mergeAssistantText (mergeAssistantText "Here is the" "Here is the answer.")
      "Here is the answer."
      = mergeAssistantText "Here is the" "Here is the answer." :=
  C8_merge_idempotent "Here is the" "Here is the answer." (Or.inl (by decide))

/-- Counterexample to C8 as stated: with transcript `"xy"` and snapshot
`"ab"` (no prefix overlap) the first merge appends, and merging the same
snapshot a second time appends it again, duplicating it. -/
theorem C8_merge_counterexample :
    mergeAssistantText "xy" "ab" = "xy\nab" ∧
    mergeAssistantText (mergeAssistantText "xy" "ab") "ab" = "xy\nab\nab" ∧
    ("xy\nab\nab" : String) ≠ "xy\nab" := by decide

/-! ## Data model (`DisplayState` from the types module,
`createDisplayState` from the bot module) -/

inductive Phase
  | thinking | reasoning | tools | responding | permission
deriving DecidableEq

structure Todo where
  content : String
  status : String
deriving DecidableEq

structure ToolState where
  name : String
  title : String
  status : String
deriving DecidableEq

/-- A value in a permission's `metadata` record (`Record<string, unknown>`
in the SDK): the code only distinguishes string values, string-array
values, and everything else. -/
inductive MetaVal
  | str (s : String)
  | strs (l : List String)
  | other
deriving DecidableEq

/-- The fields of the SDK `Permission` object that the code reads. The
`metadata` record is modelled as an association list with unique keys. -/
structure Permission where
  id : String
  sessionID : String
  type : String
  title : String
  metadata : List (String × MetaVal)
deriving DecidableEq

/-- `DisplayState` from the types module. The `tokens` sub-object is
flattened into `tokensInput`/`tokensOutput`; `tools` is the
`Map<string, ToolState>` keyed by tool-call id, in insertion order. -/
structure DisplayState where
  phase : Phase
  userInput : String
  reasoning : String
  tools : List (String × ToolState)
  toolHistory : List String
  currentTool : Option String
  text : String
  statusNote : Option String
  filesEdited : List String
  todos : List Todo
  tokensInput : Nat
  tokensOutput : Nat
  cost : ℚ
  modelLabel : Option String
  pendingPermission : Option Permission
  aborted : Bool
deriving DecidableEq

/-- `createDisplayState(userInput)` from the bot module. -/
def createDisplayState (userInput : String) : DisplayState :=
  { phase := .thinking, userInput := userInput, reasoning := "", tools := [],
    toolHistory := [], currentTool := none, text := "", statusNote := none,
    filesEdited := [], todos := [], tokensInput := 0, tokensOutput := 0,
    cost := 0, modelLabel := none, pendingPermission := none, aborted := false }

/-! ## Permission policy (`permissions` module) -/

inductive PermissionProfile
  | strict | balanced | power
deriving DecidableEq

def STRICT_AUTO_ALLOW : List String := []

def BALANCED_AUTO_ALLOW : List String :=
  ["read", "glob", "grep", "todoread", "webfetch"]

def POWER_AUTO_ALLOW : List String :=
  ["read", "glob", "grep", "todoread", "webfetch",
   "edit", "write", "bash", "task"]

/-- `getAutoAllowSet(profile)`; the JS `default` case is `balanced`. -/
def getAutoAllowSet : PermissionProfile → List String
  | .strict => STRICT_AUTO_ALLOW
  | .power => POWER_AUTO_ALLOW
  | .balanced => BALANCED_AUTO_ALLOW

/-- A stored permission override, as returned by
`db.loadPermissionOverrides` (sqlite row: tool, pattern, action). -/
structure PermOverride where
  tool : String
  pattern : String
  action : String
deriving DecidableEq

/-- The override loop inside `shouldAutoAllow`: the first override whose
`tool` matches the permission type (or is `"*"`) and whose `action` is
`"allow"`/`"deny"` decides; other actions are skipped. -/
def overrideDecision (ptype : String) : List PermOverride → Option Bool
  | [] => none
  | o :: rest =>
    if o.tool = ptype || o.tool = "*" then
      if o.action = "allow" then some true
      else if o.action = "deny" then some false
      else overrideDecision ptype rest
    else overrideDecision ptype rest

/-- `shouldAutoAllow(permission, profile, userId)`. The overrides list is
passed explicitly, modelling `loadPermissionOverrides(userId)` (an
external sqlite read); a user with no stored overrides — or an undefined
`userId` — yields `[]`. -/
def shouldAutoAllow (permission : Permission) (profile : PermissionProfile)
    (overrides : List PermOverride) : Bool :=
  match overrideDecision permission.type overrides with
  | some b => b
  | none => (getAutoAllowSet profile).contains permission.type

/-! ## Path safety (`safety` module) -/

structure SafetyCheck where
  allowed : Bool
  reason : Option String := none
deriving DecidableEq

/-- Models Node `path.resolve` on the inputs that occur here: a single
absolute, already-normalized path is returned unchanged. (Resolution of
relative paths against the process working directory and `..`/`.`
normalization are not exercised by any claim.) -/
def pathResolve (p : String) : String := p

def pathFields : List String :=
  ["path", "file", "filePath", "target", "directory", "cwd"]

/-- The field loop of `extractPathFromPermission`: the first path field
holding a nonempty string value wins. -/
def findPathField (metadata : List (String × MetaVal)) :
    List String → Option String
  | [] => none
  | f :: rest =>
    match metadata.lookup f with
    | some (.str v) => if v = "" then findPathField metadata rest else some v
    | _ => findPathField metadata rest

/-- The argument loop of `extractPathFromPermission`: the first argument
that looks like a path (`/…`, `./…`, `../…`) wins. -/
def findPathArg : List String → Option String
  | [] => none
  | a :: rest =>
    if jsStartsWith a "/" || jsStartsWith a "./" || jsStartsWith a "../"
    then some a else findPathArg rest

/-- `extractPathFromPermission(permission)`. -/
def extractPathFromPermission (permission : Permission) : Option String :=
  match findPathField permission.metadata pathFields with
  | some v => some v
  | none =>
    match permission.metadata.lookup "command",
          permission.metadata.lookup "args" with
    | some (.str command), some (.strs args) =>
        if command = "" then none else findPathArg args
    | _, _ => none

/-- `checkPathSafety(targetPath, allowedRoots)`; `path.sep` is `"/"`. -/
def checkPathSafety (targetPath : String)
    (allowedRoots : Option (List String)) : SafetyCheck :=
  match allowedRoots with
  | none => { allowed := true }
  | some roots =>
    if roots.length = 0 then { allowed := true }
    else
      let normalizedTarget := pathResolve targetPath
      if roots.any (fun root =>
          let normalizedRoot := pathResolve root
          normalizedTarget = normalizedRoot ||
            jsStartsWith normalizedTarget (normalizedRoot ++ "/"))
      then { allowed := true }
      else { allowed := false,
             reason := some ("Path \"" ++ targetPath
               ++ "\" is outside allowed directories") }

/-- `checkPermissionSafety(permission, allowedRoots)`. -/
def checkPermissionSafety (permission : Permission)
    (allowedRoots : Option (List String)) : SafetyCheck :=
  match extractPathFromPermission permission with
  | none => { allowed := true }
  | some targetPath => checkPathSafety targetPath allowedRoots

/-! ## The `permission.updated` branch of the event loop

`streamSession`'s handler for a `permission.updated` event of the active
session: safety check first (reject + status note + forced render on
failure), then the auto-allow policy (acknowledge `"once"`, nothing else),
otherwise suspend: set `phase = "permission"`, populate
`pendingPermission`, force a render and wait on the single-resolution
permission promise. Effects on the backend/chat surface are recorded in
order. -/

inductive PermEffect
  | respond (response : String)
  | render
  | suspend
deriving DecidableEq

def handlePermission (st : DisplayState) (perm : Permission)
    (profile : PermissionProfile) (allowedRoots : Option (List String))
    (overrides : List PermOverride) : DisplayState × List PermEffect :=
  let safetyCheck := checkPermissionSafety perm allowedRoots
  if safetyCheck.allowed = false then
    ({ st with statusNote := some ("⚠️ " ++ safetyCheck.reason.getD "") },
     [.respond "reject", .render])
  else if shouldAutoAllow perm profile overrides then
    (st, [.respond "once"])
  else
    ({ st with phase := .permission, pendingPermission := some perm },
     [.render, .suspend])

/-! ### Claim C10 -/

/-- **C10**. Under the `"strict"` permission profile, with no stored
permission overrides, `shouldAutoAllow` returns `false` for every
permission: the strict auto-allow set is empty, so nothing is ever
auto-approved. -/
theorem C10_strict_never_auto_allows :
    ∀ p : Permission, shouldAutoAllow p .strict [] = false := by
  intro p
  simp [shouldAutoAllow, overrideDecision, getAutoAllowSet, STRICT_AUTO_ALLOW]

/-! ### Claim C5 -/

/-- **C5** (amended). A `permission.updated` event whose tool type is
auto-allowed by the active profile (and not denied by an override) *and
which passes the allowed-roots path-safety check* is immediately
acknowledged with response `"once"` and nothing else: the display state is
unchanged (no `phase = "permission"`, no `pendingPermission`) and no
render or suspension occurs. -/
theorem C5_auto_allow_silent :
    ∀ (st : DisplayState) (perm : Permission) (profile : PermissionProfile)
      (roots : Option (List String)) (overrides : List PermOverride),
      (checkPermissionSafety perm roots).allowed = true →
      shouldAutoAllow perm profile overrides = true →
      handlePermission st perm profile roots overrides
        = (st, [.respond "once"]) := by
  intro st perm profile roots overrides hsafe hauto
  unfold handlePermission
  simp [hsafe, hauto]

/-- Witness for `C5_auto_allow_silent`: a `"read"` permission with no
path metadata, balanced profile, no allowed-roots restriction. -/
theorem C5_auto_allow_silent_witness :
    handlePermission (createDisplayState "hi")
      ⟨"perm1", "s1", "read", "Read file", []⟩ .balanced none []
      = (createDisplayState "hi", [.respond "once"]) :=
  C5_auto_allow_silent (createDisplayState "hi")
    ⟨"perm1", "s1", "read", "Read file", []⟩ .balanced none []
    (by decide) (by decide)

/-- Counterexample to C5 as stated: a `"read"` permission (auto-allowed
under the balanced profile, no overrides) whose path metadata falls
outside the configured allowed roots is *rejected* (response `"reject"`)
and a status-note render is emitted — the safety check runs before the
auto-allow policy, so the claim's premise does not suffice. -/
theorem C5_counterexample :
    shouldAutoAllow ⟨"perm2", "s1", "read", "Read file",
        [("path", MetaVal.str "/outside/secret")]⟩ .balanced [] = true ∧
    (handlePermission (createDisplayState "hi")
        ⟨"perm2", "s1", "read", "Read file",
          [("path", MetaVal.str "/outside/secret")]⟩ .balanced
        (some ["/home/user"]) []).2
      = [.respond "reject", .render] := by decide

/-! ## Token/cost accounting and the `sawStepFinish` latch

The counters live in `state.tokens`/`state.cost`; the latch is the local
`sawStepFinish` of `streamSession`. Three code sites touch them:

* the `step-finish` part handler in the event loop:
  `sawStepFinish = true; state.tokens.input += s.tokens.input; …` —
  unconditional credit, sets the latch;
* the poll loop and the `message.updated` handler:
  `if (!sawStepFinish && info.tokens) { state.tokens.input += …; … }` —
  credit from an assistant-message snapshot, gated by the latch, with
  `info.cost ?? 0`, and *not* setting the latch.

`AcctEvent` is one report reaching either site. -/

inductive AcctEvent
  | stepFinish (tin tout : Nat) (cost : ℚ)
  | snapshot (tokens : Option (Nat × Nat)) (cost : Option ℚ)
deriving DecidableEq

def AcctEvent.isSnapshot : AcctEvent → Bool
  | .stepFinish _ _ _ => false
  | .snapshot _ _ => true

structure Acct where
  input : Nat
  output : Nat
  cost : ℚ
  sawStepFinish : Bool
deriving DecidableEq

/-- Counters at turn start (`createDisplayState` plus
`let sawStepFinish = false`). -/
def acctInit : Acct := ⟨0, 0, 0, false⟩

def acctStep (a : Acct) : AcctEvent → Acct
  | .stepFinish tin tout c =>
      { input := a.input + tin, output := a.output + tout,
        cost := a.cost + c, sawStepFinish := true }
  | .snapshot none _ => a
  | .snapshot (some (tin, tout)) c =>
      if a.sawStepFinish then a
      else { a with input := a.input + tin, output := a.output + tout,
                    cost := a.cost + c.getD 0 }

def acctFold (a : Acct) (events : List AcctEvent) : Acct :=
  events.foldl acctStep a

lemma acctFold_latched (a : Acct) (ha : a.sawStepFinish = true) :
    ∀ evs : List AcctEvent, (∀ e ∈ evs, e.isSnapshot = true) →
      acctFold a evs = a := by
  intro evs
  induction evs with
  | nil => intro _; rfl
  | cons e rest ih =>
    intro h
    have he : e.isSnapshot = true := h e (List.mem_cons_self e rest)
    have hstep : acctStep a e = a := by
      cases e with
      | stepFinish tin tout c => simp [AcctEvent.isSnapshot] at he
      | snapshot t c =>
        cases t with
        | none => rfl
        | some p => cases p with
          | mk tin tout => simp [acctStep, ha]
    show acctFold (acctStep a e) rest = a
    rw [hstep]
    exact ih (fun e' he' => h e' (List.mem_cons_of_mem e he'))

/-! ### Claim C1 -/

/-- **C1** (amended). The `sawStepFinish` latch is one-directional: an
event-stream `step-finish` credit sets it, and once set, *no* later
snapshot report (poll-loop or `message.updated`) from either channel
changes the counters. A snapshot credit, however, does not set the latch,
so it does not prevent a later `step-finish` — or further snapshots — from
crediting the same step again (see the counterexample). -/
theorem C1_latch_one_directional :
    ∀ (a : Acct) (tin tout : Nat) (c : ℚ) (evs : List AcctEvent),
      (∀ e ∈ evs, e.isSnapshot = true) →
      acctFold (acctStep a (.stepFinish tin tout c)) evs
        = acctStep a (.stepFinish tin tout c) := by
  intro a tin tout c evs h
  exact acctFold_latched _ rfl evs h

/-- Witness for `C1_latch_one_directional`: after a `step-finish` credit,
a duplicate snapshot report of the same step credits nothing. -/
theorem C1_latch_one_directional_witness :
    acctFold (acctStep acctInit (.stepFinish 10 5 1))
        [.snapshot (some (10, 5)) (some 1), .snapshot none none]
      = acctStep acctInit (.stepFinish 10 5 1) :=
  C1_latch_one_directional acctInit 10 5 1
    [.snapshot (some (10, 5)) (some 1), .snapshot none none] (by decide)

/-- Counterexample to C1 as stated: one step worth 10+5 tokens is
reported first by a polled assistant-message snapshot (which credits but
does not set the latch) and then by the event-stream `step-finish` (which
credits unconditionally): the counters receive two steps' worth — the
first channel to report was *not* the only one credited. -/
theorem C1_counterexample :
    acctFold acctInit
        [.snapshot (some (10, 5)) (some 1), .stepFinish 10 5 1]
      = { input := 20, output := 10, cost := 2, sawStepFinish := true } ∧
    (20 + 10 : Nat) ≠ 10 + 5 := by
  refine ⟨?_, by decide⟩
  simp only [acctFold, List.foldl, acctStep, acctInit, Option.getD]
  norm_num

/-! ## The nudge queue (`pendingNudges`)

Three code sites touch the per-session queue:

* the `message:text` handler, when a turn for the session is active and
  not aborted: an empty trim is dropped; with `pendingPermission` set the
  trimmed text is pushed onto the queue; otherwise it is dispatched
  directly to the backend (`promptAsync`);
* the `perm:` callback: after forwarding the decision it takes the whole
  queue, deletes it, and sends `queued.join("\n")` as one `promptAsync`
  message — only if the queue is nonempty;
* turn end (`streamSession`'s `finally`): `activeMessages.delete(key)` —
  the turn is gone but the queue is *not* touched.

`sent` records the backend `promptAsync` payloads in order. -/

structure NudgeSys where
  queue : List String
  pendingPermission : Bool
  active : Bool
  sent : List String
deriving DecidableEq

/-- JS `items.join("\n")`. -/
def joinNewline (items : List String) : String := String.intercalate "\n" items

/-- The active-turn path of the `message:text` handler. -/
def onUserText (sys : NudgeSys) (text : String) : NudgeSys :=
  if sys.active = false then sys
  else
    let nudgeText := jsTrim text
    if nudgeText = "" then sys
    else if sys.pendingPermission then
      { sys with queue := sys.queue ++ [nudgeText] }
    else { sys with sent := sys.sent ++ [nudgeText] }

/-- The nudge-flush part of the `perm:` callback (the handler returns
early unless a pending permission exists). -/
def onPermResolve (sys : NudgeSys) : NudgeSys :=
  if sys.pendingPermission = false then sys
  else
    let sys1 := { sys with pendingPermission := false }
    if sys1.queue = [] then sys1
    else { sys1 with queue := [],
                     sent := sys1.sent ++ [joinNewline sys1.queue] }

/-- Turn end: `streamSession`'s `finally` block removes the active
message; the nudge queue is left as is. -/
def onTurnEnd (sys : NudgeSys) : NudgeSys := { sys with active := false }

lemma nudge_enqueue (msgs : List String) :
    ∀ sys : NudgeSys, sys.active = true → sys.pendingPermission = true →
      (∀ m ∈ msgs, jsTrim m ≠ "") →
      (msgs.foldl onUserText sys).queue = sys.queue ++ msgs.map jsTrim ∧
      (msgs.foldl onUserText sys).sent = sys.sent ∧
      (msgs.foldl onUserText sys).active = true ∧
      (msgs.foldl onUserText sys).pendingPermission = true := by
  induction msgs with
  | nil => intro sys ha hp _; exact ⟨by simp, rfl, ha, hp⟩
  | cons m rest ih =>
    intro sys ha hp h
    have hm : jsTrim m ≠ "" := h m (List.mem_cons_self m rest)
    have hstep : onUserText sys m
        = { sys with queue := sys.queue ++ [jsTrim m] } := by
      unfold onUserText
      simp [ha, hp, hm]
    have h' : ∀ x ∈ rest, jsTrim x ≠ "" :=
      fun x hx => h x (List.mem_cons_of_mem m hx)
    have := ih { sys with queue := sys.queue ++ [jsTrim m] } ha hp h'
    refine ⟨?_, ?_, ?_, ?_⟩ <;>
      simp only [List.foldl_cons, hstep] <;>
      simp [this.1, this.2.1, this.2.2.1, this.2.2.2]

/-! ### Claim C4 -/

/-- **C4** (amended). User texts arriving while a permission is pending
are appended to the per-session nudge queue in FIFO submission order
(trimmed; empty trims are dropped — here every message is assumed
nonempty after trimming), and resolving the permission flushes them
exactly once as one combined backend message joined in submission order,
clearing the queue; resolving again sends nothing further. (The queue is
*not* cleared at turn end — see the counterexample.) -/
theorem C4_nudge_fifo_flush :
    ∀ (sys : NudgeSys) (msgs : List String),
      sys.active = true → sys.pendingPermission = true →
      msgs ≠ [] → (∀ m ∈ msgs, jsTrim m ≠ "") →
      (msgs.foldl onUserText sys).queue = sys.queue ++ msgs.map jsTrim ∧
      (onPermResolve (msgs.foldl onUserText sys)).sent
        = sys.sent ++ [joinNewline (sys.queue ++ msgs.map jsTrim)] ∧
      (onPermResolve (msgs.foldl onUserText sys)).queue = [] ∧
      onPermResolve (onPermResolve (msgs.foldl onUserText sys))
        = onPermResolve (msgs.foldl onUserText sys) := by
  intro sys msgs ha hp hne h
  obtain ⟨hq, hs, _, hp'⟩ := nudge_enqueue msgs sys ha hp h
  have hqne : (msgs.foldl onUserText sys).queue ≠ [] := by
    rw [hq]
    intro habs
    rcases List.append_eq_nil.mp habs with ⟨_, h2⟩
    exact hne (List.map_eq_nil_iff.mp h2)
  have hres : onPermResolve (msgs.foldl onUserText sys)
      = { msgs.foldl onUserText sys with
          pendingPermission := false, queue := [],
          sent := (msgs.foldl onUserText sys).sent
            ++ [joinNewline (msgs.foldl onUserText sys).queue] } := by
    unfold onPermResolve
    simp [hp', hqne]
  refine ⟨hq, ?_, ?_, ?_⟩
  · rw [hres]; simp [hq, hs]
  · rw [hres]
  · rw [hres]; unfold onPermResolve; simp

/-- Witness for `C4_nudge_fifo_flush`: two nudges queued during a
suspension are flushed as the single message `"first\nsecond"` (trimmed,
in submission order) and the queue is cleared. -/
theorem C4_nudge_fifo_flush_witness :
    (onPermResolve (["first", " second "].foldl onUserText
        ⟨[], true, true, []⟩)).sent = [joinNewline ["first", "second"]] ∧
    (onPermResolve (["first", " second "].foldl onUserText
        ⟨[], true, true, []⟩)).queue = [] := by
  have h := C4_nudge_fifo_flush ⟨[], true, true, []⟩ ["first", " second "]
    rfl rfl (by decide) (by decide)
  refine ⟨?_, h.2.2.1⟩
  have := h.2.1
  simpa using this

/-- Counterexample to C4 as stated: a nudge queued while a permission is
pending survives the end of the turn — no code path clears
`pendingNudges` at turn end, so the queue is *not* "also cleared at turn
end". -/
theorem C4_nudge_counterexample :
    (onTurnEnd (onUserText ⟨[], true, true, []⟩ "hello")).queue
      = ["hello"] ∧ (["hello"] : List String) ≠ [] := by decide

/-! ## Markdown chunking (`clampRawMarkdown`, `splitRawMarkdown` from the
utils module) -/

/-- The code-fence marker ``` . -/
def fenceMarker : List Char := "```".data

/-- The scan behind `countFences`, structurally recursive on a fuel
bound: a match consumes its three characters, as the regex's global scan
does; otherwise the scan advances one character. Each step consumes one
fuel and at least one character, so fuel = input length never runs out. -/
def countFencesGo : Nat → List Char → Nat
  | 0, _ => 0
  | _, [] => 0
  | fuel + 1, c :: rest =>
    if fenceMarker.isPrefixOf (c :: rest) then countFencesGo fuel (rest.drop 2) + 1
    else countFencesGo fuel rest

/-- `(s.match(/```/g) ?? []).length`: the number of non-overlapping fence
markers, scanning left to right. -/
def countFences (l : List Char) : Nat := countFencesGo l.length l

/-- JS `s.lastIndexOf(pat, pos)`: the largest index `i ≤ pos` at which
`pat` occurs in `s` (in full), or `none` (JS: `-1`). -/
def lastIndexOfLe (pat : List Char) (s : List Char) (pos : Nat) : Option Nat :=
  go 0 none s
where
  go : Nat → Option Nat → List Char → Option Nat
    | _, acc, [] => acc
    | i, acc, c :: rest =>
      go (i + 1)
        (if i ≤ pos && pat.isPrefixOf (c :: rest) then some i else acc) rest

/-- JS `s.lastIndexOf(pat)` (no position): search the whole string. -/
def lastIndexOfAll (pat s : List Char) : Option Nat :=
  lastIndexOfLe pat s s.length

/-- JS `-1` for a missing index. -/
def optToInt : Option Nat → Int
  | none => -1
  | some n => (n : Int)

/-- The cut cascade shared by `clampRawMarkdown` and `splitRawMarkdown`:

```
let cut = remaining.lastIndexOf("\n\n", max)
if (cut < max / 2) cut = remaining.lastIndexOf("\n", max)
if (cut < max / 2) cut = remaining.lastIndexOf(" ", max)
if (cut < max / 2) cut = max
```

Over the integers `cut < max / 2` (JS float division) is exactly
`2 * cut < max`. The result is always nonnegative. -/
def baseCut (remaining : List Char) (max : Nat) : Int :=
  let cut := optToInt (lastIndexOfLe "\n\n".data remaining max)
  let cut := if 2 * cut < (max : Int)
             then optToInt (lastIndexOfLe "\n".data remaining max) else cut
  let cut := if 2 * cut < (max : Int)
             then optToInt (lastIndexOfLe " ".data remaining max) else cut
  if 2 * cut < (max : Int) then (max : Int) else cut

/-- The fence-relocation step:

```
const prefix = remaining.slice(0, cut)
const fenceCount = (prefix.match(/```/g) ?? []).length
if (fenceCount % 2 === 1) {
  const lastFence = prefix.lastIndexOf("```")
  if (lastFence > 0) cut = lastFence
}
```
-/
def fenceAdjustedCut (remaining : List Char) (cutN : Nat) : Nat :=
  let front := remaining.take cutN
  if countFences front % 2 = 1 then
    match lastIndexOfAll fenceMarker front with
    | some lastFence => if 0 < lastFence then lastFence else cutN
    | none => cutN
  else cutN

/-- One `splitRawMarkdown` loop iteration's final cut: the cascade, the
fence relocation, then the empty-chunk fallback
(`if (chunk.length === 0) cut = max`). -/
def chunkCut (remaining : List Char) (max : Nat) : Nat :=
  let cutN := fenceAdjustedCut remaining (baseCut remaining max).toNat
  if trimEndL (remaining.take cutN) = [] then max else cutN

/-- The `splitRawMarkdown` loop. `fuel` bounds the number of iterations;
callers pass the input length, which suffices because every iteration
with `max ≥ 1` consumes at least one character (the cut is positive
whenever the trimmed chunk is nonempty, and is `max` otherwise). -/
def splitGo (max : Nat) : Nat → List Char → List (List Char)
  | _, [] => []
  | 0, remaining => [remaining]
  | fuel + 1, remaining =>
    if remaining.length ≤ max then [remaining]
    else
      let cut := chunkCut remaining max
      trimEndL (remaining.take cut)
        :: splitGo max fuel (trimStartL (remaining.drop cut))

/-- `splitRawMarkdown(text, max = RAW_MARKDOWN_SAFE_LIMIT)`. -/
def splitRawMarkdown (text : String)
    (max : Nat := RAW_MARKDOWN_SAFE_LIMIT) : List String :=
  if jsLength text ≤ max then [text]
  else (splitGo max text.data.length text.data).map String.mk

/-- `clampRawMarkdown(text)`: same cascade and fence relocation, single
cut, with a truncation marker. -/
def clampRawMarkdown (text : String) : String × Bool :=
  if jsLength text ≤ RAW_MARKDOWN_SAFE_LIMIT then (text, false)
  else
    let cut := fenceAdjustedCut text.data
      (baseCut text.data RAW_MARKDOWN_SAFE_LIMIT).toNat
    (⟨trimEndL (text.data.take cut)⟩ ++ "...", true)

/-! ### Claim C7 -/

/-- **C7** (amended). When the computed cascade split point would leave an
odd number of fence markers before it *and* the last fence marker before
it starts at a positive index *and* the text before that fence is not all
whitespace, the split point is relocated to the start of that fence.
Chunks are *not* guaranteed an even fence count in general (see the
counterexample: the relocation is skipped when the unbalanced fence
starts the remainder, and a final chunk inherits any imbalance of the
input). -/
theorem C7_fence_relocation :
    ∀ (remaining : List Char) (max : Nat),
      countFences (remaining.take (baseCut remaining max).toNat) % 2 = 1 →
      ∀ lf, lastIndexOfAll fenceMarker
          (remaining.take (baseCut remaining max).toNat) = some lf →
        0 < lf →
        trimEndL (remaining.take lf) ≠ [] →
        chunkCut remaining max = lf := by
  intro remaining max hodd lf hlast hpos hne
  have h1 : fenceAdjustedCut remaining (baseCut remaining max).toNat = lf := by
    unfold fenceAdjustedCut
    simp only [hodd, hlast]
    simp [hpos]
  unfold chunkCut
  rw [h1]
  simp [hne]

/-- Witness for `C7_fence_relocation`: in `"a ```bcd"` with limit 6 the
cascade cut is 6 (word boundary too early, falls back to the limit), the
prefix `"a ```b"` holds one fence marker (odd) starting at index 2, and
the cut is relocated to 2. -/
theorem C7_fence_relocation_witness :
    chunkCut "a ```bcd".data 6 = 2 :=
  C7_fence_relocation "a ```bcd".data 6 (by decide) 2 (by decide)
    (by decide) (by decide)

/-- Counterexample to C7 as stated: `splitRawMarkdown` emits chunks with
an odd number of fence markers. A short input that *is* a lone fence is
returned as its own (odd) chunk, and when the unbalanced fence opens at
index 0 of the remainder the relocation guard `lastFence > 0` skips the
relocation, leaving the odd-fenced chunk `"```abc"`. -/
theorem C7_counterexample :
    splitRawMarkdown "```" = ["```"] ∧
    countFences ("```" : String).data % 2 = 1 ∧
    splitRawMarkdown "```abcdefgh" 6 = ["```abc", "defgh"] ∧
    countFences ("```abc" : String).data % 2 = 1 := by decide

/-! ## The render formatter (`renderDisplay`, `renderFinalMessage`)

`redact.redactSecrets` (a regex scrubber) and `toTelegramMarkdown` (the
external `telegramify-markdown` package) are collaborators and appear as
function parameters (`redactSecrets`, `fmt`); `Number.prototype.toFixed`
appears as `fmtFixed`. No claim depends on their behaviour. -/

def TOOL_ICONS : List (String × String) :=
  [("read", "📖"), ("edit", "✏️"), ("write", "📝"), ("bash", "⚡"),
   ("glob", "🔍"), ("grep", "🔎"), ("webfetch", "🌐"), ("task", "🤖"),
   ("todowrite", "📋"), ("todoread", "📋")]

def PERMISSION_ICONS : List (String × String) :=
  [("edit", "✏️"), ("write", "📝"), ("bash", "⚡"), ("delete", "🗑️")]

def TODO_STATUS_ICONS : List (String × String) :=
  [("pending", "⬜"), ("in_progress", "🔄"), ("completed", "✅"),
   ("cancelled", "⏹")]

/-- `constants.TOOL_ICONS[name] ?? "🔧"`. -/
def toolIcon (name : String) : String := (TOOL_ICONS.lookup name).getD "🔧"

/-- `constants.TODO_STATUS_ICONS[status] ?? "⬜"`. -/
def todoIcon (status : String) : String :=
  (TODO_STATUS_ICONS.lookup status).getD "⬜"

/-- `constants.PERMISSION_ICONS[type] ?? "🔐"`. -/
def permissionIcon (ptype : String) : String :=
  (PERMISSION_ICONS.lookup ptype).getD "🔐"

structure BreadcrumbItem where
  name : String
  count : Nat
deriving DecidableEq

/-- The collapse loop of `formatToolBreadcrumb`: consecutive identical
tool names merge into one item with a repeat count. -/
def collapseTools (toolHistory : List String) : List BreadcrumbItem :=
  toolHistory.foldl (fun items tool =>
    match items.getLast? with
    | some last =>
      if last.name = tool then
        items.dropLast ++ [{ name := tool, count := last.count + 1 }]
      else items ++ [{ name := tool, count := 1 }]
    | none => [{ name := tool, count := 1 }]) []

/-- The overflow step: more than `MAX_BREADCRUMB_TOOLS` items keep the
first ⌈n/2⌉ and last ⌊n/2⌋ around an ellipsis item. -/
def overflowItems (items : List BreadcrumbItem) : List BreadcrumbItem :=
  if MAX_BREADCRUMB_TOOLS < items.length then
    items.take ((MAX_BREADCRUMB_TOOLS + 1) / 2)
      ++ [{ name := "…", count := 1 }]
      ++ items.drop (items.length - MAX_BREADCRUMB_TOOLS / 2)
  else items

def formatBreadcrumbItem (i : Nat) (item : BreadcrumbItem) : String :=
  if item.name = "…" then "…"
  else
    let icon := toolIcon item.name
    let suffix := if 2 < item.count then " x" ++ toString item.count else ""
    if i < BREADCRUMB_FULL_NAME_COUNT then icon ++ " " ++ item.name ++ suffix
    else icon ++ suffix

/-- `formatToolBreadcrumb(toolHistory, currentTool)`. -/
def formatToolBreadcrumb (toolHistory : List String)
    (currentTool : Option String) : String :=
  if toolHistory.length = 0 ∧ currentTool = none then ""
  else
    let items := overflowItems (collapseTools toolHistory)
    let formatted := items.enum.map fun p => formatBreadcrumbItem p.1 p.2
    let result := String.intercalate " → " formatted
    match currentTool with
    | none => result
    | some ct =>
      let icon := toolIcon ct
      let lastMatches : Bool := match items.getLast? with
        | some last => last.name == ct
        | none => false
      if lastMatches then result ++ "..."
      else
        let result := if result ≠ "" then result ++ " → " else result
        result ++ (if items.length < BREADCRUMB_FULL_NAME_COUNT
                   then icon ++ " " ++ ct ++ "..." else icon ++ "...")

/-- `formatTodoList(todos)`. -/
def formatTodoList (todos : List Todo) : String :=
  if todos.length = 0 then ""
  else
    let lines := (todos.take MAX_TODO_ITEMS).map fun t =>
      todoIcon t.status ++ " " ++ t.content
    let remaining := todos.length - lines.length
    let lines := if 0 < remaining
      then lines ++ ["… +" ++ toString remaining ++ " more"] else lines
    String.intercalate "\n" ("📋 Tasks" :: lines)

/-- `metadata.command ?? metadata.cmd ?? metadata.input ?? metadata.text`
(`??` takes the first *present* key, whatever the value's type). -/
def metaChain (metadata : List (String × MetaVal)) : Option MetaVal :=
  (metadata.lookup "command").orElse fun _ =>
    (metadata.lookup "cmd").orElse fun _ =>
      (metadata.lookup "input").orElse fun _ => metadata.lookup "text"

/-- `formatPermissionRequest(permission)`. -/
def formatPermissionRequest (permission : Permission) : String :=
  let firstLine := permissionIcon permission.type ++ " " ++ permission.title
  match metaChain permission.metadata with
  | some (.str cmd) =>
    if cmd = "" then firstLine
    else firstLine ++ "\n" ++ "Command: " ++ truncate cmd 300
  | _ => firstLine

/-- The working-state body of `renderDisplay` (everything after the
aborted and permission early returns). -/
def renderDisplayBody (redactSecrets : String → String)
    (state : DisplayState) (redactionEnabled : Bool) : String :=
  let breadcrumb := formatToolBreadcrumb state.toolHistory state.currentTool
  let text := if redactionEnabled then redactSecrets state.text else state.text
  let text := normalizeDisplayText text
  if text ≠ "" then
    if breadcrumb ≠ "" then breadcrumb ++ "\n\n" ++ text else text
  else
    let sections : List String := if breadcrumb ≠ "" then [breadcrumb] else []
    let todoSection := formatTodoList state.todos
    let sections := if todoSection ≠ "" then sections ++ [todoSection]
      else sections
    let phaseSection :=
      if state.phase = .reasoning ∧ state.reasoning ≠ "" then
        "🧠 " ++ truncate state.reasoning 200
      else if state.phase = .tools then
        let toolLines := String.intercalate "\n" (state.tools.map fun p =>
          toolIcon p.2.name ++ " " ++ p.2.title ++ " " ++
            (if p.2.status = "completed" then "✓"
             else if p.2.status = "error" then "✗" else "…"))
        if toolLines = "" then "⚙️ Working..." else toolLines
      else "💭 Thinking..."
    let sections := sections ++ [phaseSection]
    let sections := match state.statusNote with
      | some note => sections ++ [note]
      | none => sections
    String.intercalate "\n\n" sections

/-- `renderDisplay(state)` from the bot module. -/
def renderDisplay (redactSecrets : String → String) (state : DisplayState)
    (redactionEnabled : Bool) : String :=
  if state.aborted then "⏹ Stopped."
  else
    match state.pendingPermission with
    | some perm =>
      if state.phase = .permission then formatPermissionRequest perm
      else renderDisplayBody redactSecrets state redactionEnabled
    | none => renderDisplayBody redactSecrets state redactionEnabled

/-- `renderFinalMessage(state, redactionEnabled)`. `fmtFixed q d` models
`q.toFixed(d)`. -/
def renderFinalMessage (redactSecrets : String → String)
    (fmtFixed : ℚ → Nat → String) (state : DisplayState)
    (redactionEnabled : Bool) : String :=
  let breadcrumb := formatToolBreadcrumb state.toolHistory none
  let sections : List String :=
    if breadcrumb ≠ "" then [breadcrumb, ""] else []
  let todoSection := formatTodoList state.todos
  let sections := if todoSection ≠ "" then sections ++ [todoSection, ""]
    else sections
  let text := if redactionEnabled then redactSecrets state.text else state.text
  let normalized := normalizeDisplayText text
  let sections :=
    if normalized ≠ "" then sections ++ [text]
    else match state.statusNote with
      | some note => sections ++ [note]
      | none => match state.modelLabel with
        | some _ => sections ++ ["(No response generated)"]
        | none => sections
  let footerParts : List String := match state.modelLabel with
    | some l => [l]
    | none => []
  let footerParts := if 0 < state.tokensInput + state.tokensOutput then
      footerParts
        ++ [fmtFixed (((state.tokensInput + state.tokensOutput : Nat) : ℚ)
              / 1000) 1 ++ "k"]
    else footerParts
  let footerParts := if 0 < state.cost then
      footerParts ++ ["$" ++ fmtFixed state.cost 3]
    else footerParts
  let sections := if footerParts ≠ [] then
      sections ++ ["\n⟪ " ++ String.intercalate " · " footerParts ++ " ⟫"]
    else sections
  let result := String.intercalate "\n" sections
  if result = "" then "Done." else result

/-! ## The update gate (the `update` closure of `streamSession`)

Gate state is the closure variables `lastRender`, `lastUpdate`,
`nextEditAllowedAt`, `lastKeyboardToken`, `usePlainText`. The outcome of
the Telegram `editMessageText` call is an input (`EditResult`); on a
parse error a plain-text fallback edit is attempted whose own outcome is
the `fallbackOk` input. The returned `Option String` is the emitted edit
payload (`none` = suppressed or failed). -/

inductive KbToken
  | abort | permission
deriving DecidableEq

structure GateState where
  lastRender : String
  lastUpdate : ℚ
  nextEditAllowedAt : ℚ
  lastKeyboardToken : KbToken
  usePlainText : Bool
deriving DecidableEq

/-- Gate state at turn start. -/
def gateInit : GateState := ⟨"", 0, 0, .abort, false⟩

inductive EditResult
  | success | retryAfter (seconds : ℚ) | parseError | otherError
deriving DecidableEq

/-- The keyboard wanted for the current state:
`permActive ? "permission" : "abort"`. -/
def desiredKeyboardToken (state : DisplayState) : KbToken :=
  if state.phase = .permission ∧ state.pendingPermission.isSome
  then .permission else .abort

/-- `utils.clampRawMarkdown(rendered || "...").text` as computed inside
`update`. -/
def gateClamped (redactSecrets : String → String) (redactionEnabled : Bool)
    (state : DisplayState) : String :=
  (clampRawMarkdown
    (if renderDisplay redactSecrets state redactionEnabled = "" then "..."
     else renderDisplay redactSecrets state redactionEnabled)).1

/-- `usePlainText ? clamped.text : toTelegramMarkdown(clamped.text)`. -/
def gateFormatted (redactSecrets fmt : String → String)
    (redactionEnabled : Bool) (state : DisplayState) (g : GateState) :
    String :=
  if g.usePlainText then gateClamped redactSecrets redactionEnabled state
  else fmt (gateClamped redactSecrets redactionEnabled state)

/-- The `update` closure. -/
def update (redactSecrets fmt : String → String) (redactionEnabled : Bool)
    (state : DisplayState) (g : GateState) (force : Bool) (now : ℚ)
    (edit : EditResult) (fallbackOk : Bool) : Option String × GateState :=
  if state.aborted then (none, g)
  else
    let desiredToken := desiredKeyboardToken state
    let keyboardChanged := desiredToken ≠ g.lastKeyboardToken
    if now < g.nextEditAllowedAt then (none, g)
    else
      let clamped := gateClamped redactSecrets redactionEnabled state
      let formatted := gateFormatted redactSecrets fmt redactionEnabled state g
      let contentChanged := formatted ≠ g.lastRender
      if ¬force ∧ ¬contentChanged ∧ ¬keyboardChanged then (none, g)
      else if ¬force ∧ now - g.lastUpdate < UPDATE_INTERVAL_MS
              ∧ ¬keyboardChanged then (none, g)
      else
        match edit with
        | .success =>
          (some formatted,
           { g with lastRender := formatted, lastUpdate := now,
                    lastKeyboardToken := desiredToken })
        | .retryAfter r => (none, { g with nextEditAllowedAt := now + r * 1000 })
        | .parseError =>
          if g.usePlainText then (none, g)
          else if fallbackOk then
            (some clamped,
             { g with usePlainText := true, lastRender := clamped,
                      lastUpdate := now, lastKeyboardToken := desiredToken })
          else (none, { g with usePlainText := true })
        | .otherError => (none, g)

/-- A sequence of non-forced `update` calls
(display state, `Date.now()`, edit outcome, fallback outcome per call),
collecting the emitted payloads. -/
def updateRun (redactSecrets fmt : String → String) (redactionEnabled : Bool) :
    List (DisplayState × ℚ × EditResult × Bool) → GateState
      → List String × GateState
  | [], g => ([], g)
  | (st, now, er, fb) :: rest, g =>
    let r := update redactSecrets fmt redactionEnabled st g false now er fb
    let rs := updateRun redactSecrets fmt redactionEnabled rest r.2
    (r.1.toList ++ rs.1, rs.2)

/-- A non-forced update inside the minimum interval since the last send,
with the required keyboard unchanged, is suppressed and leaves the gate
untouched — regardless of how much the content changed. -/
lemma update_suppressed (redactSecrets fmt : String → String)
    (redactionEnabled : Bool) (st : DisplayState) (g : GateState) (now : ℚ)
    (er : EditResult) (fb : Bool)
    (htime : now - g.lastUpdate < UPDATE_INTERVAL_MS)
    (hkb : desiredKeyboardToken st = g.lastKeyboardToken) :
    update redactSecrets fmt redactionEnabled st g false now er fb
      = (none, g) := by
  unfold update
  by_cases hab : st.aborted
  · simp [hab]
  · simp only [hab, Bool.false_eq_true, if_false]
    by_cases hnext : now < g.nextEditAllowedAt
    · simp [hnext]
    · simp only [hnext, if_false]
      have hkb' : ¬ (desiredKeyboardToken st ≠ g.lastKeyboardToken) := by
        simpa using hkb
      by_cases hcc :
          gateFormatted redactSecrets fmt redactionEnabled st g ≠ g.lastRender
      · simp [hcc, hkb', htime]
      · simp [hcc, hkb', htime]

/-- When the gate is past any rate-limit pause, the formatted content
differs from the last render, and the minimum interval has elapsed, a
(successful) non-forced update emits the formatted content. -/
lemma update_success_emits (redactSecrets fmt : String → String)
    (redactionEnabled : Bool) (st : DisplayState) (g : GateState) (now : ℚ)
    (fb : Bool)
    (hab : st.aborted = false)
    (hnext : ¬ now < g.nextEditAllowedAt)
    (hcc : gateFormatted redactSecrets fmt redactionEnabled st g
      ≠ g.lastRender)
    (htime : ¬ now - g.lastUpdate < UPDATE_INTERVAL_MS) :
    (update redactSecrets fmt redactionEnabled st g false now .success fb).1
      = some (gateFormatted redactSecrets fmt redactionEnabled st g) := by
  unfold update
  simp [hab, hnext, hcc, htime]

/-! ### Claim C6 -/

/-- **C6** (amended). A non-forced update is suppressed (nothing sent, the
gate unchanged) whenever the time since the last send is below the
minimum interval and the required keyboard state is unchanged — *any*
nonnegative content delta included, as there is no minimum-character-delta
test; consequently every sequence of such calls, at whatever content
deltas, emits zero renders. (Conversely a 1-character delta at or past
the interval *is* rendered — see the counterexample.) -/
theorem C6_throttle :
    ∀ (redactSecrets fmt : String → String) (redactionEnabled : Bool)
      (g : GateState) (calls : List (DisplayState × ℚ × EditResult × Bool)),
      (∀ c ∈ calls, c.2.1 - g.lastUpdate < UPDATE_INTERVAL_MS ∧
        desiredKeyboardToken c.1 = g.lastKeyboardToken) →
      updateRun redactSecrets fmt redactionEnabled calls g = ([], g) := by
  intro redactSecrets fmt redactionEnabled g calls
  induction calls with
  | nil => intro _; rfl
  | cons c rest ih =>
    intro h
    obtain ⟨st, now, er, fb⟩ := c
    have hc := h _ (List.mem_cons_self _ rest)
    have hstep := update_suppressed redactSecrets fmt redactionEnabled
      st g now er fb hc.1 hc.2
    show (let r := update redactSecrets fmt redactionEnabled st g false now er fb
          let rs := updateRun redactSecrets fmt redactionEnabled rest r.2
          (r.1.toList ++ rs.1, rs.2)) = ([], g)
    rw [hstep]
    have := ih (fun c' hc' => h c' (List.mem_cons_of_mem _ hc'))
    simp [this]

/-- Witness for `C6_throttle`: two rapid-fire content-only updates after a
send at time 0 (calls at 400 and 800 ms, keyboard unchanged) emit
nothing. -/
theorem C6_throttle_witness :
    updateRun (fun s => s) (fun s => s) false
      [({ createDisplayState "q" with phase := .responding, text := "ab" },
         400, .success, true),
       ({ createDisplayState "q" with phase := .responding, text := "abc" },
         800, .success, true)]
      ⟨"a", 0, 0, .abort, true⟩ = ([], ⟨"a", 0, 0, .abort, true⟩) := by
  apply C6_throttle
  intro c hc
  fin_cases hc
  · exact ⟨by norm_num [UPDATE_INTERVAL_MS], by rfl⟩
  · exact ⟨by norm_num [UPDATE_INTERVAL_MS], by rfl⟩

/-- Counterexample to C6 as stated: a 1-character content delta (far below
`MIN_CHARS_DELTA = 30`) at exactly the minimum interval *is* rendered —
the gate has no minimum-character-delta condition. -/
theorem C6_counterexample :
    (update (fun s => s) (fun s => s) false
        { createDisplayState "q" with phase := .responding, text := "ab" }
        ⟨"a", 0, 0, .abort, true⟩ false 1000 .success true).1 = some "ab" ∧
    jsLength "ab" - jsLength "a" < MIN_CHARS_DELTA := by
  constructor
  · have h := update_success_emits (fun s => s) (fun s => s) false
      { createDisplayState "q" with phase := .responding, text := "ab" }
      ⟨"a", 0, 0, .abort, true⟩ 1000 true
      (by rfl)
      (by norm_num)
      (by decide)
      (by norm_num [UPDATE_INTERVAL_MS])
    rw [h]
    decide
  · decide

/-! ## Cancellation: the abort callback and the terminal flush

The turn-level state couples the display state, the gate, and the chat
surface: `msgContent` is the visible text of the turn's Telegram message
(the MarkdownV2 escaping applied for transport renders back to its input,
so the model tracks the pre-escaping text); `permissionResolved` records
that `entry.resolvePermission?.()` has fired; `backendAborted` that
`entry.abortController.abort()` and `opencode.session.abort` were
signalled. -/

structure TurnSt where
  display : DisplayState
  gate : GateState
  msgContent : String
  permissionResolved : Bool
  backendAborted : Bool

/-- The `abort` callback body for an active turn:

```
entry.state.aborted = true; entry.resolvePermission?.()
entry.abortController.abort()
void opencode.session.abort(…)
await ctx.editMessageText("⏹ Stopped.", …)
```
-/
def abortAction (t : TurnSt) : TurnSt :=
  { t with display := { t.display with aborted := true },
           permissionResolved := true,
           backendAborted := true,
           msgContent := "⏹ Stopped." }

/-- One `update` call seen at the turn level: on emission the visible
message becomes the emitted content; the `Bool` reports whether an edit
was sent. -/
def gateUpdate (redactSecrets fmt : String → String)
    (redactionEnabled : Bool) (t : TurnSt) (force : Bool) (now : ℚ)
    (er : EditResult) (fb : Bool) : TurnSt × Bool :=
  let r := update redactSecrets fmt redactionEnabled t.display t.gate
    force now er fb
  match r.1 with
  | some content => ({ t with gate := r.2, msgContent := content }, true)
  | none => ({ t with gate := r.2 }, false)

/-- The terminal flush at the end of `streamSession`:
`const final = state.aborted ? "⏹ Stopped." : renderFinalMessage(…)`,
chunked by `splitRawMarkdown`; the first chunk (or `"Done."` when it is
empty) becomes the visible message. -/
def finalFlush (redactSecrets : String → String)
    (fmtFixed : ℚ → Nat → String) (redactionEnabled : Bool)
    (t : TurnSt) : TurnSt :=
  let finalText := if t.display.aborted then "⏹ Stopped."
    else renderFinalMessage redactSecrets fmtFixed t.display redactionEnabled
  let chunks := splitRawMarkdown finalText
  let first := match chunks.head? with
    | some c => if c = "" then "Done." else c
    | none => "Done."
  { t with msgContent := first }

/-- Anything that can happen to the turn after a point in time: further
update-gate calls (any force flag, timing and transport outcome), the
terminal flush, or pressing abort again. -/
inductive TurnOp
  | gate (force : Bool) (now : ℚ) (er : EditResult) (fb : Bool)
  | flush
  | abortAgain

/-- Run a sequence of turn operations, counting the edits sent by the
update gate. -/
def runTurnOps (redactSecrets fmt : String → String)
    (fmtFixed : ℚ → Nat → String) (redactionEnabled : Bool) :
    List TurnOp → TurnSt → TurnSt × Nat
  | [], t => (t, 0)
  | op :: rest, t =>
    let step : TurnSt × Nat := match op with
      | .gate force now er fb =>
        let r := gateUpdate redactSecrets fmt redactionEnabled t
          force now er fb
        (r.1, if r.2 then 1 else 0)
      | .flush => (finalFlush redactSecrets fmtFixed redactionEnabled t, 0)
      | .abortAgain => (abortAction t, 0)
    let rs := runTurnOps redactSecrets fmt fmtFixed redactionEnabled rest
      step.1
    (rs.1, step.2 + rs.2)

/-- The first line of the `update` closure: an aborted turn never edits
and leaves the gate untouched. -/
lemma update_aborted (redactSecrets fmt : String → String)
    (redactionEnabled : Bool) (st : DisplayState) (g : GateState)
    (force : Bool) (now : ℚ) (er : EditResult) (fb : Bool)
    (h : st.aborted = true) :
    update redactSecrets fmt redactionEnabled st g force now er fb
      = (none, g) := by
  unfold update
  simp [h]

lemma runTurnOps_stopped (redactSecrets fmt : String → String)
    (fmtFixed : ℚ → Nat → String) (redactionEnabled : Bool) :
    ∀ (ops : List TurnOp) (t : TurnSt),
      t.display.aborted = true → t.msgContent = "⏹ Stopped." →
      (runTurnOps redactSecrets fmt fmtFixed redactionEnabled ops t).1.display.aborted
          = true ∧
      (runTurnOps redactSecrets fmt fmtFixed redactionEnabled ops t).1.msgContent
          = "⏹ Stopped." ∧
      (runTurnOps redactSecrets fmt fmtFixed redactionEnabled ops t).2 = 0 := by
  intro ops
  induction ops with
  | nil => intro t h1 h2; exact ⟨h1, h2, rfl⟩
  | cons op rest ih =>
    intro t h1 h2
    cases op with
    | gate force now er fb =>
      have hupd := update_aborted redactSecrets fmt redactionEnabled
        t.display t.gate force now er fb h1
      have hg : gateUpdate redactSecrets fmt redactionEnabled t
          force now er fb = (t, false) := by
        unfold gateUpdate
        rw [hupd]
      have hrest := ih t h1 h2
      simp only [runTurnOps, hg]
      exact ⟨hrest.1, hrest.2.1, by simpa using hrest.2.2⟩
    | flush =>
      have hsp : splitRawMarkdown "⏹ Stopped." = ["⏹ Stopped."] := by decide
      have hfl : finalFlush redactSecrets fmtFixed redactionEnabled t
          = { t with msgContent := "⏹ Stopped." } := by
        unfold finalFlush
        rw [if_pos h1]
        simp [hsp]
      have hrest := ih { t with msgContent := "⏹ Stopped." } h1 rfl
      simp only [runTurnOps, hfl]
      exact ⟨hrest.1, hrest.2.1, by simpa using hrest.2.2⟩
    | abortAgain =>
      have hrest := ih (abortAction t) rfl rfl
      simp only [runTurnOps]
      exact ⟨hrest.1, hrest.2.1, by simpa using hrest.2.2⟩

/-! ### Claim C3 -/

/-- **C3**. From any turn state (any phase — thinking, reasoning,
tool-running, responding, or awaiting-permission), the abort callback
sets `aborted` (which no later operation ever unsets), force-resolves any
pending permission wait, signals the backend abort, and renders the
terminal `"⏹ Stopped."`; thereafter, any sequence of update-gate calls
and terminal flushes sends zero gate edits and leaves the visible message
at `"⏹ Stopped."` — exactly one terminal render. -/
theorem C3_abort_deterministic :
    ∀ (redactSecrets fmt : String → String) (fmtFixed : ℚ → Nat → String)
      (redactionEnabled : Bool) (t : TurnSt) (ops : List TurnOp),
      (abortAction t).display.aborted = true ∧
      (abortAction t).permissionResolved = true ∧
      (abortAction t).backendAborted = true ∧
      (abortAction t).msgContent = "⏹ Stopped." ∧
      (runTurnOps redactSecrets fmt fmtFixed redactionEnabled ops
        (abortAction t)).1.display.aborted = true ∧
      (runTurnOps redactSecrets fmt fmtFixed redactionEnabled ops
        (abortAction t)).1.msgContent = "⏹ Stopped." ∧
      (runTurnOps redactSecrets fmt fmtFixed redactionEnabled ops
        (abortAction t)).2 = 0 := by
  intro redactSecrets fmt fmtFixed redactionEnabled t ops
  have h := runTurnOps_stopped redactSecrets fmt fmtFixed redactionEnabled
    ops (abortAction t) rfl rfl
  exact ⟨rfl, rfl, rfl, rfl, h.1, h.2.1, h.2.2⟩

/-! ## The status-poll loop of `streamSession`

```
let stableCount = 0, delay = constants.POLL_INITIAL_MS, lastTextChange = Date.now()
while (!state.aborted) {
  const { data } = await opencode.session.message(…).catch(() => ({ data: undefined }))
  const text = extractTextFromParts(parts, …)
  if (text && text !== lastText) { lastText = text; lastTextChange = Date.now(); stableCount = 0; … }
  else stableCount++
  if (info?.role === "assistant") { …; if (info.time?.completed) break }
  if (stableCount >= constants.STABLE_POLL_COUNT
      && Date.now() - lastTextChange > constants.MIN_STABLE_MS) break
  delay = Math.min(constants.POLL_MAX_MS, delay * 1.5); await utils.sleep(delay)
}
```

One poll observation is the fetched message: its extracted text (a failed
fetch yields `""`) and whether it is an assistant message carrying a
`time.completed` stamp. Model time advances by exactly the slept delay
per iteration (any extra real latency only grows the elapsed times in the
exit test); `state.aborted` is an additional early exit and is omitted —
it can only shorten the loop. Rendering and token crediting inside the
loop do not touch the loop variables and are modelled elsewhere. -/

structure PollObs where
  text : String
  completed : Bool

structure PollState where
  lastText : String
  stableCount : Nat
  lastTextChange : ℚ
  delay : ℚ
  time : ℚ

/-- Loop variables on entry (`lastText` extracted from the prompt
response's parts, current time as last change). -/
def pollInit (startText : String) (startTime : ℚ) : PollState :=
  { lastText := startText, stableCount := 0, lastTextChange := startTime,
    delay := POLL_INITIAL_MS, time := startTime }

/-- The text-freshness update at the top of an iteration. -/
def pollTextStep (o : PollObs) (s : PollState) : PollState :=
  if o.text ≠ "" ∧ o.text ≠ s.lastText
  then { s with lastText := o.text, lastTextChange := s.time,
                stableCount := 0 }
  else { s with stableCount := s.stableCount + 1 }

/-- One loop iteration: `none` means the loop breaks (completion stamp or
stability), otherwise the state after the backoff sleep. -/
def pollStep (o : PollObs) (s : PollState) : Option PollState :=
  let s1 := pollTextStep o s
  if o.completed then none
  else if STABLE_POLL_COUNT ≤ s1.stableCount ∧
          MIN_STABLE_MS < s1.time - s1.lastTextChange then none
  else some { s1 with delay := min POLL_MAX_MS (s1.delay * 3 / 2),
                      time := s1.time + min POLL_MAX_MS (s1.delay * 3 / 2) }

/-- Run `n` iterations, the `k`-th consuming observation `obs (i + k)`;
`none` as soon as the loop has exited. -/
def pollRunFrom (obs : ℕ → PollObs) : ℕ → ℕ → PollState → Option PollState
  | _, 0, s => some s
  | i, n + 1, s =>
    match pollStep (obs i) s with
    | none => none
    | some s' => pollRunFrom obs (i + 1) n s'

lemma pollTextStep_time (o : PollObs) (s : PollState) :
    (pollTextStep o s).time = s.time := by
  unfold pollTextStep; split <;> rfl

lemma pollTextStep_delay (o : PollObs) (s : PollState) :
    (pollTextStep o s).delay = s.delay := by
  unfold pollTextStep; split <;> rfl

lemma pollTextStep_ltc (o : PollObs) (s : PollState) :
    (pollTextStep o s).lastTextChange = s.lastTextChange ∨
    (pollTextStep o s).lastTextChange = s.time := by
  unfold pollTextStep
  split
  · right; rfl
  · left; rfl

lemma pollTextStep_stable (o : PollObs) (s : PollState)
    (h : ¬ (o.text ≠ "" ∧ o.text ≠ s.lastText)) :
    pollTextStep o s = { s with stableCount := s.stableCount + 1 } := by
  unfold pollTextStep; rw [if_neg h]

lemma pollStep_completed (o : PollObs) (s : PollState)
    (h : o.completed = true) : pollStep o s = none := by
  simp [pollStep, h]

lemma pollStep_some_facts (o : PollObs) (s s' : PollState)
    (h : pollStep o s = some s') :
    s'.delay = min POLL_MAX_MS (s.delay * 3 / 2) ∧
    s'.time = s.time + min POLL_MAX_MS (s.delay * 3 / 2) ∧
    (s'.lastTextChange = s.lastTextChange ∨ s'.lastTextChange = s.time) := by
  simp only [pollStep] at h
  split at h
  · exact absurd h (by simp)
  · split at h
    · exact absurd h (by simp)
    · injection h with h
      subst h
      refine ⟨?_, ?_, ?_⟩
      · show min POLL_MAX_MS ((pollTextStep o s).delay * 3 / 2)
            = min POLL_MAX_MS (s.delay * 3 / 2)
        rw [pollTextStep_delay]
      · show (pollTextStep o s).time
            + min POLL_MAX_MS ((pollTextStep o s).delay * 3 / 2)
            = s.time + min POLL_MAX_MS (s.delay * 3 / 2)
        rw [pollTextStep_delay, pollTextStep_time]
      · exact pollTextStep_ltc o s

lemma pollStep_lastText (o : PollObs) (s s' : PollState)
    (h : pollStep o s = some s') :
    s'.lastText = o.text ∨ o.text = "" := by
  simp only [pollStep] at h
  split at h
  · exact absurd h (by simp)
  · split at h
    · exact absurd h (by simp)
    · injection h with h
      subst h
      show (pollTextStep o s).lastText = o.text ∨ o.text = ""
      unfold pollTextStep
      split
      · left; rfl
      · rename_i hcond
        by_cases he : o.text = ""
        · right; exact he
        · left
          rcases not_and_or.mp hcond with h1 | h1
          · exact absurd (by simpa using h1) he
          · have : o.text = s.lastText := by simpa using h1
            exact this.symm

lemma poll_min_delay {d : ℚ} (hd : POLL_INITIAL_MS ≤ d) :
    POLL_INITIAL_MS ≤ min POLL_MAX_MS (d * 3 / 2) := by
  have h1 : (POLL_INITIAL_MS : ℚ) = 400 := rfl
  have h2 : (POLL_MAX_MS : ℚ) = 5000 := rfl
  refine le_min (by rw [h1, h2]; norm_num) ?_
  rw [h1] at hd ⊢
  linarith

lemma pollStep_inv (o : PollObs) (s s' : PollState)
    (h : pollStep o s = some s')
    (hd : POLL_INITIAL_MS ≤ s.delay) (hl : s.lastTextChange ≤ s.time) :
    POLL_INITIAL_MS ≤ s'.delay ∧ s'.lastTextChange ≤ s'.time ∧
    s.time + POLL_INITIAL_MS ≤ s'.time := by
  obtain ⟨h1, h2, h3⟩ := pollStep_some_facts o s s' h
  have hmin := poll_min_delay hd
  have h400 : (0 : ℚ) < POLL_INITIAL_MS := by norm_num [POLL_INITIAL_MS]
  refine ⟨h1 ▸ hmin, ?_, ?_⟩
  · rcases h3 with h3 | h3 <;> rw [h2, h3] <;> linarith
  · rw [h2]; linarith

lemma pollStep_stable_some (o : PollObs) (s s' : PollState)
    (hst : o.text = "" ∨ o.text = s.lastText)
    (h : pollStep o s = some s') :
    s'.stableCount = s.stableCount + 1 ∧
    s'.lastTextChange = s.lastTextChange ∧ s'.lastText = s.lastText := by
  have hcond : ¬ (o.text ≠ "" ∧ o.text ≠ s.lastText) := by
    rcases hst with h1 | h1 <;> simp [h1]
  have hts := pollTextStep_stable o s hcond
  simp only [pollStep, hts] at h
  split at h
  · exact absurd h (by simp)
  · split at h
    · exact absurd h (by simp)
    · injection h with h
      subst h
      exact ⟨rfl, rfl, rfl⟩

lemma pollStep_stable_exit (o : PollObs) (s : PollState)
    (hst : o.text = "" ∨ o.text = s.lastText)
    (hcnt : STABLE_POLL_COUNT ≤ s.stableCount + 1)
    (hgap : MIN_STABLE_MS < s.time - s.lastTextChange) :
    pollStep o s = none := by
  have hcond : ¬ (o.text ≠ "" ∧ o.text ≠ s.lastText) := by
    rcases hst with h1 | h1 <;> simp [h1]
  have hts := pollTextStep_stable o s hcond
  by_cases hc : o.completed
  · exact pollStep_completed o s hc
  · simp only [pollStep, hts, hc, Bool.false_eq_true, if_false]
    rw [if_pos ⟨hcnt, hgap⟩]

/-- Once every remaining observation carries the same text `t` and the
state's `lastText` already agrees (or `t` is empty), the loop exits
within `j + 1` further iterations, where `j` is large enough for the
stability window (stable-count and minimum-stability-time) to fill. -/
lemma pollRun_stable_exits (obs : ℕ → PollObs) (t : String) :
    ∀ (j i : ℕ) (s : PollState),
      (∀ m, i ≤ m → (obs m).text = t) →
      (s.lastText = t ∨ t = "") →
      POLL_INITIAL_MS ≤ s.delay →
      s.lastTextChange ≤ s.time →
      MIN_STABLE_MS < s.time - s.lastTextChange + POLL_INITIAL_MS * j →
      STABLE_POLL_COUNT ≤ s.stableCount + 1 + j →
      ∃ n, pollRunFrom obs i n s = none := by
  intro j
  induction j with
  | zero =>
    intro i s hobs hlt hd hl hgap hcnt
    have hoi : (obs i).text = t := hobs i (le_refl i)
    have hst : (obs i).text = "" ∨ (obs i).text = s.lastText := by
      rcases hlt with h | h
      · right; rw [hoi, h]
      · left; rw [hoi, h]
    have hexit := pollStep_stable_exit (obs i) s hst
      (by simpa using hcnt) (by simpa using hgap)
    exact ⟨1, by simp [pollRunFrom, hexit]⟩
  | succ j ih =>
    intro i s hobs hlt hd hl hgap hcnt
    cases hstep : pollStep (obs i) s with
    | none => exact ⟨1, by simp [pollRunFrom, hstep]⟩
    | some s' =>
      have hoi : (obs i).text = t := hobs i (le_refl i)
      have hst : (obs i).text = "" ∨ (obs i).text = s.lastText := by
        rcases hlt with h | h
        · right; rw [hoi, h]
        · left; rw [hoi, h]
      obtain ⟨hinv1, hinv2, hinv3⟩ := pollStep_inv (obs i) s s' hstep hd hl
      obtain ⟨hsc, hltc, hlt'⟩ := pollStep_stable_some (obs i) s s' hst hstep
      have hlt'' : s'.lastText = t ∨ t = "" := by
        rcases hlt with h | h
        · left; rw [hlt', h]
        · right; exact h
      have hgap' : MIN_STABLE_MS
          < s'.time - s'.lastTextChange + POLL_INITIAL_MS * j := by
        rw [hltc]
        have : (POLL_INITIAL_MS : ℚ) * (j + 1)
            = POLL_INITIAL_MS * j + POLL_INITIAL_MS := by ring
        push_cast at hgap
        rw [this] at hgap
        linarith
      have hcnt' : STABLE_POLL_COUNT ≤ s'.stableCount + 1 + j := by
        rw [hsc]; omega
      obtain ⟨n, hn⟩ := ih (i + 1) s'
        (fun m hm => hobs m (le_trans (Nat.le_succ i) hm))
        hlt'' hinv1 hinv2 hgap' hcnt'
      exact ⟨n + 1, by simp [pollRunFrom, hstep, hn]⟩

/-- From any state satisfying the loop invariants, once the observations
from some index on all carry the same text, the loop exits. -/
lemma pollRun_exits (obs : ℕ → PollObs) (t : String) (N : ℕ)
    (hobs : ∀ m, N ≤ m → (obs m).text = t) :
    ∀ (d i : ℕ) (s : PollState), N ≤ i + d →
      POLL_INITIAL_MS ≤ s.delay → s.lastTextChange ≤ s.time →
      ∃ n, pollRunFrom obs i n s = none := by
  intro d
  induction d with
  | zero =>
    intro i s hNi hd hl
    -- i ≥ N: the very next observation is already stable.
    cases hstep : pollStep (obs i) s with
    | none => exact ⟨1, by simp [pollRunFrom, hstep]⟩
    | some s' =>
      obtain ⟨hinv1, hinv2, _⟩ := pollStep_inv (obs i) s s' hstep hd hl
      have hoi : (obs i).text = t := hobs i (by omega)
      have hlt : s'.lastText = t ∨ t = "" := by
        rcases pollStep_lastText (obs i) s s' hstep with h | h
        · left; rw [h, hoi]
        · right; rw [← hoi, h]
      have hgap : MIN_STABLE_MS
          < s'.time - s'.lastTextChange + POLL_INITIAL_MS * (8 : ℕ) := by
        have h1 : (POLL_INITIAL_MS : ℚ) = 400 := rfl
        have h2 : (MIN_STABLE_MS : ℚ) = 3000 := rfl
        push_cast
        rw [h1, h2]
        linarith
      have hcnt : STABLE_POLL_COUNT ≤ s'.stableCount + 1 + 8 := by
        have : STABLE_POLL_COUNT = 4 := rfl
        omega
      obtain ⟨n, hn⟩ := pollRun_stable_exits obs t 8 (i + 1) s'
        (fun m hm => hobs m (by omega)) hlt hinv1 hinv2 hgap hcnt
      exact ⟨n + 1, by simp [pollRunFrom, hstep, hn]⟩
  | succ d ih =>
    intro i s hNi hd hl
    cases hstep : pollStep (obs i) s with
    | none => exact ⟨1, by simp [pollRunFrom, hstep]⟩
    | some s' =>
      obtain ⟨hinv1, hinv2, _⟩ := pollStep_inv (obs i) s s' hstep hd hl
      obtain ⟨n, hn⟩ := ih (i + 1) s' (by omega) hinv1 hinv2
      exact ⟨n + 1, by simp [pollRunFrom, hstep, hn]⟩

/-! ### Claim C9 -/

/-- **C9**. The status-poll loop (a) exits as soon as the polled message
reports a completion timestamp; (b) backs off exponentially — every
continuing iteration sets the delay to
`min(POLL_MAX_MS, delay * 1.5)` starting from `POLL_INITIAL_MS`; and
(c) terminates once the polled text stabilizes: if from some poll index
on the extracted text never changes again, the loop exits after finitely
many iterations (the stability break fires once `STABLE_POLL_COUNT`
consecutive stable polls have accumulated and more than `MIN_STABLE_MS`
has elapsed since the last text change) — it never busy-loops
indefinitely. -/
theorem C9_poll_terminates :
    (∀ (o : PollObs) (s : PollState), o.completed = true →
      pollStep o s = none) ∧
    (∀ (o : PollObs) (s s' : PollState), pollStep o s = some s' →
      s'.delay = min POLL_MAX_MS (s.delay * 3 / 2)) ∧
    (∀ (obs : ℕ → PollObs) (t startText : String) (startTime : ℚ) (N : ℕ),
      (∀ m, N ≤ m → (obs m).text = t) →
      ∃ n, pollRunFrom obs 0 n (pollInit startText startTime) = none) := by
  refine ⟨pollStep_completed, ?_, ?_⟩
  · intro o s s' h
    exact (pollStep_some_facts o s s' h).1
  · intro obs t startText startTime N hobs
    exact pollRun_exits obs t N hobs N 0 (pollInit startText startTime)
      (by omega) (le_refl _) (le_refl _)

/-- Witness for `C9_poll_terminates`: a completed poll exits immediately,
and under an everywhere-stable observation stream the loop exits after
finitely many polls. -/
theorem C9_poll_terminates_witness :
    pollStep ⟨"x", true⟩ (pollInit "" 0) = none ∧
    ∃ n, pollRunFrom (fun _ => ⟨"done", false⟩) 0 n (pollInit "" 0)
      = none :=
  ⟨C9_poll_terminates.1 ⟨"x", true⟩ (pollInit "" 0) rfl,
   C9_poll_terminates.2.2 (fun _ => ⟨"done", false⟩) "done" "" 0 0
     (fun _ _ => rfl)⟩

end OTB
